import Mathlib

set_option linter.unusedSectionVars false

/-!
Shallow embedding of `substrate/src/generation/mod.rs` (`GenerationMap` and
friends) and proofs of the spec's claims about it.

Modelling conventions:
* `HashMap<K, S>` is modelled as an association list `List (K × Nat)` with
  latest-binding-first lookup (`lookupA`); `HashMap::insert` prepends, so the
  newest binding shadows older ones, matching hash-map replace semantics.
* `SlotMap<S, ObjectStatus<V>>` is modelled as `List (ObjectStatus V)` indexed
  by `Nat`: the code never removes slots, so slotmap keys are in bijection with
  insertion order and `insert` always returns a fresh key (`objects.length`).
* `Arc<V>` is modelled as `V` itself: `Arc` equality in the code under test is
  by pointee value, and the payload is immutable once published.
* A Rust panic (indexing a slotmap with an invalid key, or the `.expect` in
  `get`) is modelled as `Option.none`; the recoverable error returned by
  `get_by_id` on a `Loading` slot is `Except.error` with the source's message.
-/

namespace Substrate
namespace Generation

/-- Association-list lookup with decidable key equality: first (newest)
binding wins, as for a hash map whose `insert` replaces. -/
def lookupA {α : Type} {β : Type} [DecidableEq α] : List (α × β) → α → Option β
  | [], _ => none
  | (a, b) :: t, k => if k = a then some b else lookupA t k

/-- Model of `ObjectStatus<V>` from the source: a slot either holds a published value
(`Exists(Arc<V>)`) or is still pending (`Loading`). -/
inductive ObjectStatus (V : Type) where
  | Exists (v : V)
  | Loading
deriving DecidableEq, Repr

/-- Model of `GeneratedCheck<R, S>` from the source. -/
inductive GeneratedCheck (R S : Type) where
  | Exists (r : R)
  | MustGenerate (s : S)
deriving DecidableEq, Repr

/-- Model of `GenerationMap<K, S, V>` from the source, with handles `S` specialised to
`Nat` slot indices (see module docstring). -/
structure GenerationMap (K V : Type) where
  target_map : List (K × Nat)
  name_map : List (String × Nat)
  objects : List (ObjectStatus V)
deriving DecidableEq, Repr

namespace GenerationMap

variable {K V : Type} [DecidableEq K]

/-- Model of `GenerationMap::new`. -/
def new : GenerationMap K V := ⟨[], [], []⟩

/-- Model of `GenerationMap::get_id`: occupied entry returns the existing handle;
vacant entry reserves a fresh slot (`objects.insert(Loading)`), records the
key, and returns `MustGenerate`. -/
def get_id (m : GenerationMap K V) (key : K) : GeneratedCheck Nat Nat × GenerationMap K V :=
  match lookupA m.target_map key with
  | some h => (.Exists h, m)
  | none =>
      let mkey := m.objects.length
      (.MustGenerate mkey,
        { m with
          objects := m.objects ++ [.Loading]
          target_map := (key, mkey) :: m.target_map })

/-- Model of `GenerationMap::get_by_id`: `none` models the panic on an invalid handle
(`self.objects[id]`); a `Loading` slot yields the internal error; an `Exists`
slot yields the shared value. Takes `&self` in the source, hence pure here. -/
def get_by_id (m : GenerationMap K V) (id : Nat) : Option (Except String V) :=
  match m.objects[id]? with
  | none => none
  | some .Loading => some (.error "attempted to view object before it has been loaded")
  | some (.Exists v) => some (.ok v)

/-- Model of `GenerationMap::gen_id`: reserves a fresh `Loading` slot with no key-table
bookkeeping, returning the fresh handle. -/
def gen_id (m : GenerationMap K V) : Nat × GenerationMap K V :=
  (m.objects.length, { m with objects := m.objects ++ [.Loading] })

/-- Model of `GenerationMap::get`: composes `get_id` with `get_by_id`; the `.expect`
panic on a failed resolution is modelled as `none`. -/
def get (m : GenerationMap K V) (key : K) :
    Option (GeneratedCheck V Nat) × GenerationMap K V :=
  match m.get_id key with
  | (.Exists id, m1) =>
      match m1.get_by_id id with
      | some (.ok v) => (some (.Exists v), m1)
      | _ => (none, m1)
  | (.MustGenerate id, m1) => (some (.MustGenerate id), m1)

/-- Model of `GenerationMap::set`: `none` models the panic on an invalid handle
(`self.objects[id] = ...`); otherwise overwrites the slot with
`Exists(Arc::new(value))`, records `name -> id` in the name table
(replacing any previous binding of `name`), and returns the shared value. -/
def set (m : GenerationMap K V) (id : Nat) (name : String) (value : V) :
    Option (V × GenerationMap K V) :=
  if id < m.objects.length then
    some (value,
      { m with
        objects := m.objects.set id (.Exists value)
        name_map := (name, id) :: m.name_map })
  else none

/-- Model of `GenerationMap::is_name_used`. -/
def is_name_used (m : GenerationMap K V) (name : String) : Bool :=
  (lookupA m.name_map name).isSome

/-- Model of `GenerationMap::is_name_available`. -/
def is_name_available (m : GenerationMap K V) (name : String) : Bool :=
  !m.is_name_used name

/-- The candidate name `format!("{}_{}", base_name, i)`. -/
def candidate (base : String) (i : Nat) : String :=
  base ++ "_" ++ Nat.repr i

/-- The probing loop of `alloc_name`, fuelled. The fuel used by `alloc_name`
is proved sufficient (`alloc_core_finds_free`), so the fuel-exhausted base
case is unreachable and the function agrees with the source's unbounded
`loop`. -/
def alloc_name_core (m : GenerationMap K V) (base : String) : Nat → Nat → String
  | 0, i => candidate base i
  | fuel + 1, i =>
      let name := candidate base i
      if m.is_name_available name then name else alloc_name_core m base fuel (i + 1)

/-- Model of `GenerationMap::alloc_name`: returns `base_name` if available, otherwise
probes `base_name_2`, `base_name_3`, ... and returns the first available
candidate. -/
def alloc_name (m : GenerationMap K V) (base : String) : String :=
  if m.is_name_available base then base
  else alloc_name_core m base (m.name_map.length + 1) 2

/-- The closure passed to `filter_map` in `GenerationMap::values`: an
`Exists` slot contributes its payload, a `Loading` slot nothing. -/
def statusValue : ObjectStatus V → Option V
  | .Exists v => some v
  | .Loading => none

/-- Model of `GenerationMap::values`: every `Exists` payload, skipping `Loading`
slots, in arena order. -/
def values (m : GenerationMap K V) : List V :=
  m.objects.filterMap statusValue

end GenerationMap

/-! ### Trace semantics

The mutating operations of the map (`get_id`, `gen_id`, `set`, and `get`,
whose state effect is that of its inner `get_id`; `get_by_id`, `alloc_name`,
`is_name_used`, `is_name_available` and `values` take `&self` and do not
mutate) as a step relation, so that claims about "every sequence of
operations" quantify over traces. -/

/-- One mutating call on the map. -/
inductive Op (K V : Type) where
  | getId (k : K)
  | genId
  | setOp (h : Nat) (name : String) (v : V)
  | getOp (k : K)
deriving DecidableEq, Repr

namespace GenerationMap

variable {K V : Type} [DecidableEq K]

/-- State effect of one call. A `set` on an invalid handle panics in the
source; such a step is modelled as a stutter (the claims only quantify over
traces whose `set` handles are valid). -/
def step (m : GenerationMap K V) : Op K V → GenerationMap K V
  | .getId k => (m.get_id k).2
  | .genId => m.gen_id.2
  | .setOp h n v =>
      match m.set h n v with
      | some (_, m') => m'
      | none => m
  | .getOp k => (m.get k).2

/-- Run a list of calls left to right. -/
def run (m : GenerationMap K V) (ops : List (Op K V)) : GenerationMap K V :=
  ops.foldl step m

/-- Traces whose every `set` targets a slot that is currently `Loading`:
the handle was previously reserved by `get_id`/`gen_id` and has not been
`set` before (each handle is set at most once). -/
inductive ValidFrom : GenerationMap K V → List (Op K V) → Prop where
  | nil (m : GenerationMap K V) : ValidFrom m []
  | getId (m : GenerationMap K V) (k : K) (ops : List (Op K V)) :
      ValidFrom (m.step (.getId k)) ops → ValidFrom m (.getId k :: ops)
  | genId (m : GenerationMap K V) (ops : List (Op K V)) :
      ValidFrom (m.step .genId) ops → ValidFrom m (.genId :: ops)
  | setOp (m : GenerationMap K V) (h : Nat) (n : String) (v : V) (ops : List (Op K V)) :
      m.objects[h]? = some .Loading →
      ValidFrom (m.step (.setOp h n v)) ops → ValidFrom m (.setOp h n v :: ops)
  | getOp (m : GenerationMap K V) (k : K) (ops : List (Op K V)) :
      ValidFrom (m.step (.getOp k)) ops → ValidFrom m (.getOp k :: ops)

/-- The handle carried by either variant of a `GeneratedCheck`. -/
def checkHandle : GeneratedCheck Nat Nat → Nat
  | .Exists h => h
  | .MustGenerate h => h

/-- Calling `gen_id` `N` times in a row, collecting the returned handles. -/
def genN : GenerationMap K V → Nat → List Nat × GenerationMap K V
  | m, 0 => ([], m)
  | m, n + 1 =>
      let p := m.gen_id
      let q := genN p.2 n
      (p.1 :: q.1, q.2)

/-- The published/loading/unreserved status of a slot. -/
inductive SlotStatus where
  | unreserved
  | loading
  | published
deriving DecidableEq, Repr

/-- Status of handle `h` in map `m`. -/
def statusOf (m : GenerationMap K V) (h : Nat) : SlotStatus :=
  match m.objects[h]? with
  | none => .unreserved
  | some .Loading => .loading
  | some (.Exists _) => .published

/-- Values carried by the `set` calls of a trace, in order. -/
def setValues {K V : Type} : List (Op K V) → List V
  | [] => []
  | .setOp _ _ v :: t => v :: setValues t
  | .getId _ :: t => setValues t
  | .genId :: t => setValues t
  | .getOp _ :: t => setValues t

/-- Whether an operation requests key `k` (the calls that can record `k` in
the key-table: `get_id` directly or through `get`). -/
def requestsKey (k : K) : Op K V → Bool
  | .getId k' => k' = k
  | .getOp k' => k' = k
  | .genId => false
  | .setOp _ _ _ => false

end GenerationMap

/-- Model of `ParamKey` from the source: `TypeId` is abstract, modelled as `Nat`; the
serialized parameter bytes as `List Nat`. Equality is structural. -/
structure ParamKey where
  t : Nat
  params : List Nat
deriving DecidableEq, Repr

/-- Model of `ParamKey::new`. -/
def ParamKey.new (t : Nat) (params : List Nat) : ParamKey := ⟨t, params⟩

namespace GenerationMap

variable {K V : Type} [DecidableEq K]

/-- Every handle in the key-table refers to a live arena slot. -/
def WfTarget (m : GenerationMap K V) : Prop :=
  ∀ k h, lookupA m.target_map k = some h → h < m.objects.length

/-- Every handle in the name-table refers to a live arena slot. -/
def WfName (m : GenerationMap K V) : Prop :=
  ∀ n h, lookupA m.name_map n = some h → h < m.objects.length

/-- Distinct keys are never mapped to the same handle. -/
def InjTarget (m : GenerationMap K V) : Prop :=
  ∀ k1 k2 h, lookupA m.target_map k1 = some h → lookupA m.target_map k2 = some h → k1 = k2

/-- Invariant of every reachable map state. -/
def Inv (m : GenerationMap K V) : Prop :=
  WfTarget m ∧ WfName m ∧ InjTarget m

end GenerationMap

/-! ### Decimal-digit helpers

`alloc_name` builds candidate names with `format!("{}_{}", base, i)`, i.e.
`base ++ "_" ++ Nat.repr i`. The claims about it need `Nat.repr` to be
injective; these helpers re-express `Nat.repr`'s digit list by well-founded
recursion and give it a valuation that round-trips. -/

/-- The digit characters of `n` in base 10, most significant first; agrees
with `Nat.toDigits 10 n` (proved below). -/
def reprDigits (n : Nat) : List Char :=
  if h : n / 10 = 0 then [Nat.digitChar (n % 10)]
  else reprDigits (n / 10) ++ [Nat.digitChar (n % 10)]
termination_by n
decreasing_by
  simp_wf
  omega

/-- Value of a most-significant-first decimal digit string. -/
def digitsVal (l : List Char) : Nat :=
  l.foldl (fun a c => a * 10 + (c.toNat - 48)) 0

/-! ## Theorems -/

/-! ### Association-list and trace basics -/

@[simp] theorem lookupA_nil {α β : Type} [DecidableEq α] (k : α) :
    lookupA ([] : List (α × β)) k = none := rfl

theorem lookupA_cons {α β : Type} [DecidableEq α] (a : α) (b : β) (t : List (α × β)) (k : α) :
    lookupA ((a, b) :: t) k = if k = a then some b else lookupA t k := rfl

namespace GenerationMap

variable {K V : Type} [DecidableEq K]

@[simp] theorem run_nil (m : GenerationMap K V) : m.run [] = m := rfl

@[simp] theorem run_cons (m : GenerationMap K V) (op : Op K V) (ops : List (Op K V)) :
    m.run (op :: ops) = (m.step op).run ops := rfl

theorem run_append (m : GenerationMap K V) (ops1 ops2 : List (Op K V)) :
    m.run (ops1 ++ ops2) = (m.run ops1).run ops2 :=
  List.foldl_append ..

end GenerationMap

/-! ### `Nat.repr` is injective -/

theorem toDigitsCore_eq_reprDigits (f : Nat) : ∀ (n : Nat) (ds : List Char), n < f →
    Nat.toDigitsCore 10 f n ds = reprDigits n ++ ds := by
  induction f with
  | zero => intro n ds h; omega
  | succ f ih =>
    intro n ds h
    rw [reprDigits]
    by_cases h10 : n / 10 = 0
    · rw [dif_pos h10]
      simp [Nat.toDigitsCore, h10]
    · rw [dif_neg h10]
      have hlt : n / 10 < f := by omega
      simp only [Nat.toDigitsCore, h10, if_false]
      rw [ih (n / 10) _ hlt, List.append_assoc, List.singleton_append]

theorem digitsVal_append_singleton (l : List Char) (c : Char) :
    digitsVal (l ++ [c]) = digitsVal l * 10 + (c.toNat - 48) := by
  simp [digitsVal, List.foldl_append]

theorem digitChar_val (d : Nat) (h : d < 10) : (Nat.digitChar d).toNat - 48 = d := by
  interval_cases d <;> decide

theorem digitsVal_reprDigits (n : Nat) : digitsVal (reprDigits n) = n := by
  induction n using Nat.strong_induction_on with
  | _ n ih =>
    rw [reprDigits]
    by_cases h : n / 10 = 0
    · rw [dif_pos h]
      have hn : n < 10 := by omega
      have : digitsVal [Nat.digitChar (n % 10)] = 0 * 10 + ((Nat.digitChar (n % 10)).toNat - 48) := rfl
      rw [this, digitChar_val _ (by omega)]
      omega
    · rw [dif_neg h]
      rw [digitsVal_append_singleton, ih (n / 10) (by omega), digitChar_val _ (by omega)]
      omega

theorem reprDigits_injective {m n : Nat} (h : reprDigits m = reprDigits n) : m = n := by
  have hm := digitsVal_reprDigits m
  rw [h, digitsVal_reprDigits] at hm
  omega

theorem natRepr_eq_reprDigits (n : Nat) : Nat.repr n = (reprDigits n).asString := by
  show (Nat.toDigits 10 n).asString = _
  unfold Nat.toDigits
  rw [toDigitsCore_eq_reprDigits (n + 1) n [] (by omega), List.append_nil]

theorem natRepr_injective {m n : Nat} (h : Nat.repr m = Nat.repr n) : m = n := by
  rw [natRepr_eq_reprDigits, natRepr_eq_reprDigits, List.asString_inj] at h
  exact reprDigits_injective h

theorem candidate_injective (base : String) {i j : Nat}
    (h : GenerationMap.candidate base i = GenerationMap.candidate base j) : i = j := by
  unfold GenerationMap.candidate at h
  have hd : (base ++ "_" ++ Nat.repr i).data = (base ++ "_" ++ Nat.repr j).data := by rw [h]
  simp only [String.data_append] at hd
  have : (Nat.repr i).data = (Nat.repr j).data := by
    exact List.append_cancel_left hd
  have hrepr : Nat.repr i = Nat.repr j := by
    cases hi : Nat.repr i with
    | mk di =>
      cases hj : Nat.repr j with
      | mk dj =>
        rw [hi, hj] at this
        simp at this
        rw [this]
  exact natRepr_injective hrepr

/-! ### `alloc_name`: the probing loop finds the first free candidate -/

theorem lookupA_isSome_mem {α β : Type} [DecidableEq α] {l : List (α × β)} {k : α}
    (h : (lookupA l k).isSome = true) : k ∈ l.map Prod.fst := by
  induction l with
  | nil => simp [lookupA] at h
  | cons p t ih =>
    obtain ⟨a, b⟩ := p
    rw [lookupA_cons] at h
    by_cases hk : k = a
    · simp [hk]
    · rw [if_neg hk] at h
      simp [ih h]

namespace GenerationMap

variable {K V : Type} [DecidableEq K]

theorem is_name_used_mem {m : GenerationMap K V} {name : String}
    (h : m.is_name_used name = true) : name ∈ m.name_map.map Prod.fst :=
  lookupA_isSome_mem h

/-- Pigeonhole: among the `name_map.length + 1` candidates
`base_2, ..., base_(name_map.length + 2)` at least one is not registered. -/
theorem exists_free_candidate (m : GenerationMap K V) (base : String) :
    ∃ j, 2 ≤ j ∧ j < m.name_map.length + 3 ∧
      m.is_name_available (candidate base j) = true := by
  by_contra hc
  push_neg at hc
  have hused : ∀ t, t < m.name_map.length + 1 →
      candidate base (2 + t) ∈ m.name_map.map Prod.fst := by
    intro t ht
    have h1 := hc (2 + t) (by omega) (by omega)
    have h2 : m.is_name_used (candidate base (2 + t)) = true := by
      simp only [is_name_available, Bool.not_eq_true] at h1
      simpa using h1
    exact is_name_used_mem h2
  set L : List String :=
    (List.range (m.name_map.length + 1)).map (fun t => candidate base (2 + t)) with hL
  have hnodup : L.Nodup := by
    refine List.Nodup.map ?_ (List.nodup_range _)
    intro a b hab
    have := candidate_injective base hab
    omega
  have hsub : ∀ x ∈ L, x ∈ m.name_map.map Prod.fst := by
    intro x hx
    rw [hL] at hx
    simp only [List.mem_map, List.mem_range] at hx
    obtain ⟨t, ht, rfl⟩ := hx
    exact hused t ht
  have hcard : L.length ≤ (m.name_map.map Prod.fst).length := by
    have h1 : L.toFinset.card = L.length := List.toFinset_card_of_nodup hnodup
    have h2 : L.toFinset ⊆ (m.name_map.map Prod.fst).toFinset := by
      intro x hx
      rw [List.mem_toFinset] at hx ⊢
      exact hsub x hx
    calc L.length = L.toFinset.card := h1.symm
      _ ≤ (m.name_map.map Prod.fst).toFinset.card := Finset.card_le_card h2
      _ ≤ (m.name_map.map Prod.fst).length := List.toFinset_card_le _
  rw [hL] at hcard
  simp only [List.length_map, List.length_range] at hcard
  omega

/-- The fuelled probing loop, given that a free candidate exists within its
fuel, returns the first free candidate at or beyond its start index. -/
theorem alloc_core_spec (m : GenerationMap K V) (base : String) :
    ∀ fuel i, (∃ j, i ≤ j ∧ j < i + fuel ∧ m.is_name_available (candidate base j) = true) →
    ∃ j, i ≤ j ∧ alloc_name_core m base fuel i = candidate base j ∧
      m.is_name_available (candidate base j) = true ∧
      ∀ t, i ≤ t → t < j → m.is_name_available (candidate base t) = false := by
  intro fuel
  induction fuel with
  | zero =>
    intro i ⟨j, hij, hj, _⟩
    omega
  | succ fuel ih =>
    intro i hex
    unfold alloc_name_core
    rcases hav : m.is_name_available (candidate base i) with hf | ht
    · rw [if_neg (by simp [hav])]
      obtain ⟨j, hij, hj, hfree⟩ := hex
      have hji : j ≠ i := fun he => by rw [he, hav] at hfree; cases hfree
      obtain ⟨j', hij', heq, hfree', hfirst⟩ :=
        ih (i + 1) ⟨j, by omega, by omega, hfree⟩
      exact ⟨j', by omega, heq, hfree', fun t hit htj => by
        rcases Nat.eq_or_lt_of_le hit with rfl | hlt
        · exact hav
        · exact hfirst t (by omega) htj⟩
    · rw [if_pos (by simp [hav])]
      exact ⟨i, le_refl i, rfl, hav, fun t h1 h2 => by omega⟩

/-- The fuel supplied by `alloc_name` covers a free candidate, so the loop
finds one. -/
theorem alloc_core_finds_free (m : GenerationMap K V) (base : String) :
    ∃ j, 2 ≤ j ∧ alloc_name_core m base (m.name_map.length + 1) 2 = candidate base j ∧
      m.is_name_available (candidate base j) = true ∧
      ∀ t, 2 ≤ t → t < j → m.is_name_available (candidate base t) = false := by
  obtain ⟨j, h2, hlt, hfree⟩ := exists_free_candidate m base
  exact alloc_core_spec m base (m.name_map.length + 1) 2 ⟨j, h2, by omega, hfree⟩

/-! ### Step characterization and the reachable-state invariant -/

theorem get_id_of_mem (m : GenerationMap K V) (k : K) (h : Nat)
    (hl : lookupA m.target_map k = some h) : m.get_id k = (.Exists h, m) := by
  unfold get_id
  rw [hl]

theorem get_id_of_not_mem (m : GenerationMap K V) (k : K)
    (hl : lookupA m.target_map k = none) :
    m.get_id k = (.MustGenerate m.objects.length,
      { m with
        objects := m.objects ++ [.Loading]
        target_map := (k, m.objects.length) :: m.target_map }) := by
  unfold get_id
  rw [hl]

theorem get_snd (m : GenerationMap K V) (k : K) : (m.get k).2 = (m.get_id k).2 := by
  unfold get
  rcases hg : m.get_id k with ⟨c, m1⟩
  cases c with
  | Exists id =>
    cases hb : m1.get_by_id id with
    | none => simp [hb]
    | some e => cases e <;> simp [hb]
  | MustGenerate id => simp

theorem set_of_lt (m : GenerationMap K V) (id : Nat) (name : String) (v : V)
    (h : id < m.objects.length) :
    m.set id name v = some (v,
      { m with
        objects := m.objects.set id (.Exists v)
        name_map := (name, id) :: m.name_map }) := by
  unfold set
  rw [if_pos h]

theorem set_of_ge (m : GenerationMap K V) (id : Nat) (name : String) (v : V)
    (h : ¬ id < m.objects.length) : m.set id name v = none := by
  unfold set
  rw [if_neg h]

theorem length_get_id_le (m : GenerationMap K V) (k : K) :
    m.objects.length ≤ (m.get_id k).2.objects.length := by
  cases hl : lookupA m.target_map k with
  | some h => rw [get_id_of_mem m k h hl]
  | none => rw [get_id_of_not_mem m k hl]; simp

theorem length_step_le (m : GenerationMap K V) (op : Op K V) :
    m.objects.length ≤ (m.step op).objects.length := by
  cases op with
  | getId k => exact length_get_id_le m k
  | genId => simp [step, gen_id]
  | setOp h n v =>
    show m.objects.length ≤ (match m.set h n v with
      | some (_, m') => m' | none => m).objects.length
    by_cases hh : h < m.objects.length
    · rw [set_of_lt m h n v hh]
      simp
    · rw [set_of_ge m h n v hh]
  | getOp k =>
    show m.objects.length ≤ (m.get k).2.objects.length
    rw [get_snd]
    exact length_get_id_le m k

theorem length_run_le (m : GenerationMap K V) (ops : List (Op K V)) :
    m.objects.length ≤ (m.run ops).objects.length := by
  induction ops generalizing m with
  | nil => simp
  | cons op ops ih =>
    rw [run_cons]
    exact le_trans (length_step_le m op) (ih (m.step op))

theorem target_get_id_persist (m : GenerationMap K V) (k' k : K) (h : Nat)
    (hl : lookupA m.target_map k = some h) :
    lookupA (m.get_id k').2.target_map k = some h := by
  cases hl' : lookupA m.target_map k' with
  | some h' => rw [get_id_of_mem m k' h' hl']; exact hl
  | none =>
    rw [get_id_of_not_mem m k' hl']
    have hkk : k ≠ k' := fun he => by rw [he, hl'] at hl; cases hl
    simp only [lookupA_cons, if_neg hkk]
    exact hl

theorem target_step_persist (m : GenerationMap K V) (op : Op K V) (k : K) (h : Nat)
    (hl : lookupA m.target_map k = some h) :
    lookupA (m.step op).target_map k = some h := by
  cases op with
  | getId k' => exact target_get_id_persist m k' k h hl
  | genId => exact hl
  | setOp h' n v =>
    show lookupA (match m.set h' n v with
      | some (_, m') => m' | none => m).target_map k = some h
    by_cases hh : h' < m.objects.length
    · rw [set_of_lt m h' n v hh]; exact hl
    · rw [set_of_ge m h' n v hh]; exact hl
  | getOp k' =>
    show lookupA (m.get k').2.target_map k = some h
    rw [get_snd]
    exact target_get_id_persist m k' k h hl

theorem target_run_persist (m : GenerationMap K V) (ops : List (Op K V)) (k : K) (h : Nat)
    (hl : lookupA m.target_map k = some h) :
    lookupA (m.run ops).target_map k = some h := by
  induction ops generalizing m with
  | nil => exact hl
  | cons op ops ih =>
    rw [run_cons]
    exact ih (m.step op) (target_step_persist m op k h hl)

theorem target_get_id_new (m : GenerationMap K V) (k' k : K) (h : Nat)
    (hl : lookupA (m.get_id k').2.target_map k = some h) :
    lookupA m.target_map k = some h ∨ m.objects.length ≤ h := by
  cases hl' : lookupA m.target_map k' with
  | some h' => rw [get_id_of_mem m k' h' hl'] at hl; exact Or.inl hl
  | none =>
    rw [get_id_of_not_mem m k' hl'] at hl
    simp only [lookupA_cons] at hl
    by_cases hkk : k = k'
    · rw [if_pos hkk] at hl
      right
      injection hl with hl
      omega
    · rw [if_neg hkk] at hl
      exact Or.inl hl

theorem target_step_new (m : GenerationMap K V) (op : Op K V) (k : K) (h : Nat)
    (hl : lookupA (m.step op).target_map k = some h) :
    lookupA m.target_map k = some h ∨ m.objects.length ≤ h := by
  cases op with
  | getId k' => exact target_get_id_new m k' k h hl
  | genId => exact Or.inl hl
  | setOp h' n v =>
    rw [show (m.step (.setOp h' n v)).target_map = (match m.set h' n v with
      | some (_, m') => m' | none => m).target_map from rfl] at hl
    by_cases hh : h' < m.objects.length
    · rw [set_of_lt m h' n v hh] at hl; exact Or.inl hl
    · rw [set_of_ge m h' n v hh] at hl; exact Or.inl hl
  | getOp k' =>
    rw [show (m.step (.getOp k')).target_map = (m.get k').2.target_map from rfl,
      get_snd] at hl
    exact target_get_id_new m k' k h hl

theorem target_run_new (m : GenerationMap K V) (ops : List (Op K V)) (k : K) (h : Nat)
    (hl : lookupA (m.run ops).target_map k = some h) :
    lookupA m.target_map k = some h ∨ m.objects.length ≤ h := by
  induction ops generalizing m with
  | nil => exact Or.inl hl
  | cons op ops ih =>
    rw [run_cons] at hl
    rcases ih (m.step op) hl with hm | hge
    · exact target_step_new m op k h hm
    · exact Or.inr (le_trans (length_step_le m op) hge)

theorem inv_new : Inv (new : GenerationMap K V) := by
  refine ⟨?_, ?_, ?_⟩ <;> intro k1 k2 h <;> simp [new] at *

theorem inv_get_id (m : GenerationMap K V) (k : K) (hi : Inv m) : Inv (m.get_id k).2 := by
  obtain ⟨hwt, hwn, hinj⟩ := hi
  cases hl : lookupA m.target_map k with
  | some h => rw [get_id_of_mem m k h hl]; exact ⟨hwt, hwn, hinj⟩
  | none =>
    rw [get_id_of_not_mem m k hl]
    refine ⟨?_, ?_, ?_⟩
    · intro k' h'
      simp only [lookupA_cons, List.length_append, List.length_singleton]
      by_cases hk : k' = k
      · rw [if_pos hk]
        intro he
        injection he with he
        omega
      · rw [if_neg hk]
        intro he
        have := hwt k' h' he
        omega
    · intro n h' he
      have := hwn n h' he
      simp only [List.length_append, List.length_singleton]
      omega
    · intro k1 k2 h'
      simp only [lookupA_cons]
      by_cases h1 : k1 = k <;> by_cases h2 : k2 = k
      · rw [h1, h2]; intro _ _; rfl
      · rw [if_pos h1, if_neg h2]
        intro he1 he2
        injection he1 with he1
        have := hwt k2 h' he2
        omega
      · rw [if_neg h1, if_pos h2]
        intro he1 he2
        injection he2 with he2
        have := hwt k1 h' he1
        omega
      · rw [if_neg h1, if_neg h2]
        exact hinj k1 k2 h'

theorem inv_step (m : GenerationMap K V) (op : Op K V) (hi : Inv m) : Inv (m.step op) := by
  obtain ⟨hwt, hwn, hinj⟩ := hi
  cases op with
  | getId k => exact inv_get_id m k ⟨hwt, hwn, hinj⟩
  | genId =>
    refine ⟨?_, ?_, hinj⟩
    · intro k h he
      have := hwt k h he
      simp only [step, gen_id, List.length_append, List.length_singleton]
      omega
    · intro n h he
      have := hwn n h he
      simp only [step, gen_id, List.length_append, List.length_singleton]
      omega
  | setOp h' n v =>
    show Inv (match m.set h' n v with | some (_, m') => m' | none => m)
    by_cases hh : h' < m.objects.length
    · rw [set_of_lt m h' n v hh]
      refine ⟨?_, ?_, ?_⟩
      · intro k h he
        have := hwt k h he
        simpa using this
      · intro n' h
        simp only [lookupA_cons, List.length_set]
        by_cases hn : n' = n
        · rw [if_pos hn]
          intro he
          injection he with he
          omega
        · rw [if_neg hn]
          exact hwn n' h
      · exact hinj
    · rw [set_of_ge m h' n v hh]
      exact ⟨hwt, hwn, hinj⟩
  | getOp k =>
    show Inv (m.get k).2
    rw [get_snd]
    exact inv_get_id m k ⟨hwt, hwn, hinj⟩

theorem inv_run (m : GenerationMap K V) (ops : List (Op K V)) (hi : Inv m) :
    Inv (m.run ops) := by
  induction ops generalizing m with
  | nil => exact hi
  | cons op ops ih =>
    rw [run_cons]
    exact ih (m.step op) (inv_step m op hi)

@[simp] theorem checkHandle_exists (h : Nat) :
    checkHandle (.Exists h) = h := rfl

@[simp] theorem checkHandle_mustGenerate (h : Nat) :
    checkHandle (.MustGenerate h) = h := rfl

/-- Whatever variant `get_id` returns, the key is afterwards mapped to the
returned handle. -/
theorem get_id_lookup_after (m : GenerationMap K V) (k : K) (c : GeneratedCheck Nat Nat)
    (m1 : GenerationMap K V) (hg : m.get_id k = (c, m1)) :
    lookupA m1.target_map k = some (checkHandle c) := by
  cases hl : lookupA m.target_map k with
  | some h =>
    rw [get_id_of_mem m k h hl] at hg
    obtain ⟨rfl, rfl⟩ := Prod.mk.injEq .. ▸ hg
    simpa [checkHandle] using hl
  | none =>
    rw [get_id_of_not_mem m k hl] at hg
    obtain ⟨rfl, rfl⟩ := Prod.mk.injEq .. ▸ hg
    simp [checkHandle, lookupA_cons]

/-- Handles and state of `N` consecutive `gen_id` calls. -/
theorem genN_spec (N : Nat) : ∀ (m : GenerationMap K V),
    (genN m N).1 = List.range' m.objects.length N ∧
    (genN m N).2.target_map = m.target_map ∧
    (genN m N).2.objects.length = m.objects.length + N := by
  induction N with
  | zero => intro m; simp [genN]
  | succ N ih =>
    intro m
    obtain ⟨h1, h2, h3⟩ := ih m.gen_id.2
    have hlen : (m.gen_id.2).objects.length = m.objects.length + 1 := by simp [gen_id]
    refine ⟨?_, ?_, ?_⟩
    · show m.gen_id.1 :: (genN m.gen_id.2 N).1 = _
      rw [h1, hlen, List.range'_succ]
      rfl
    · show (genN m.gen_id.2 N).2.target_map = m.target_map
      rw [h2]
      rfl
    · show (genN m.gen_id.2 N).2.objects.length = m.objects.length + (N + 1)
      rw [h3, hlen]
      omega

/-- A step that does not request key `k` leaves `k`'s key-table binding
unchanged. -/
theorem target_step_no_request (m : GenerationMap K V) (op : Op K V) (k : K)
    (hnr : requestsKey k op = false) :
    lookupA (m.step op).target_map k = lookupA m.target_map k := by
  cases op with
  | getId k' =>
    have hkk : k ≠ k' := by
      intro he
      rw [show requestsKey k (Op.getId k') = decide (k' = k) from rfl] at hnr
      rw [he] at hnr
      simp at hnr
    show lookupA (m.get_id k').2.target_map k = _
    cases hl' : lookupA m.target_map k' with
    | some h' => rw [get_id_of_mem m k' h' hl']
    | none =>
      rw [get_id_of_not_mem m k' hl']
      simp only [lookupA_cons, if_neg hkk]
  | genId => rfl
  | setOp h' n v =>
    show lookupA (match m.set h' n v with
      | some (_, m') => m' | none => m).target_map k = _
    by_cases hh : h' < m.objects.length
    · rw [set_of_lt m h' n v hh]
    · rw [set_of_ge m h' n v hh]
  | getOp k' =>
    have hkk : k ≠ k' := by
      intro he
      rw [show requestsKey k (Op.getOp k') = decide (k' = k) from rfl] at hnr
      rw [he] at hnr
      simp at hnr
    show lookupA (m.get k').2.target_map k = _
    rw [get_snd]
    cases hl' : lookupA m.target_map k' with
    | some h' => rw [get_id_of_mem m k' h' hl']
    | none =>
      rw [get_id_of_not_mem m k' hl']
      simp only [lookupA_cons, if_neg hkk]

/-- A trace that never requests key `k` leaves `k`'s key-table binding
unchanged. -/
theorem target_run_no_request (m : GenerationMap K V) (ops : List (Op K V)) (k : K)
    (hnr : ∀ op ∈ ops, requestsKey k op = false) :
    lookupA (m.run ops).target_map k = lookupA m.target_map k := by
  induction ops generalizing m with
  | nil => rfl
  | cons op ops ih =>
    show lookupA ((m.step op).run ops).target_map k = _
    rw [ih (m.step op) (fun o ho => hnr o (List.mem_cons_of_mem op ho)),
      target_step_no_request m op k (hnr op (List.mem_cons_self op ops))]

end GenerationMap

open GenerationMap in
/-- C1: deduplication by key. First part: the first `get_id` call for a key
(no earlier operation of the trace requested an equal key) takes the
`MustGenerate` path. Second part: once a key has been reserved (its first
`get_id` returned `MustGenerate h`), every later `get_id` on an equal key —
after any further sequence of operations, in any order and multiplicity —
returns `Exists h` with the identical handle `h`, leaving the map
unchanged. -/
theorem C1_get_id_same_key_same_handle {K V : Type} [DecidableEq K] :
    (∀ (ops : List (Op K V)) k, (∀ op ∈ ops, requestsKey k op = false) →
      ∃ h m2, ((GenerationMap.new).run ops).get_id k = (.MustGenerate h, m2))
    ∧ (∀ (ops1 : List (Op K V)) k h m2,
        ((GenerationMap.new).run ops1).get_id k = (.MustGenerate h, m2) →
        ∀ ops2, ((m2.run ops2)).get_id k = (.Exists h, m2.run ops2)) := by
  constructor
  · intro ops k hnr
    have hl : lookupA ((GenerationMap.new (K := K) (V := V)).run ops).target_map k = none := by
      rw [target_run_no_request _ ops k hnr]
      rfl
    rw [get_id_of_not_mem _ k hl]
    exact ⟨_, _, rfl⟩
  · intro ops1 k h m2 hfirst ops2
    have hl : lookupA m2.target_map k = some h := by
      have := get_id_lookup_after _ k (.MustGenerate h) m2 hfirst
      simpa [checkHandle] using this
    have hl2 := target_run_persist m2 ops2 k h hl
    exact get_id_of_mem _ k h hl2

open GenerationMap in
/-- Witness for C1 at a concrete trace: key reserved as handle 0 from the
empty map, then looked up again after unrelated operations. -/
theorem C1_witness :
    ((GenerationMap.mk [("key1", 0)] [] [.Loading] : GenerationMap String Nat).run
        [.genId, .getId "key2"]).get_id "key1" =
      (.Exists 0,
        (GenerationMap.mk [("key1", 0)] [] [.Loading] : GenerationMap String Nat).run
          [.genId, .getId "key2"]) :=
  (C1_get_id_same_key_same_handle (K := String) (V := Nat)).2 [] "key1" 0
    (GenerationMap.mk [("key1", 0)] [] [.Loading]) (by decide) [.genId, .getId "key2"]

open GenerationMap in
/-- C2: handles are fresh. First part: `get_id` calls for distinct keys, at
any two points of any trace, return distinct handles. Second part: `N`
consecutive `gen_id` calls return pairwise-distinct handles, distinct from
every handle previously recorded for a key and from every handle any later
`get_id` returns. -/
theorem C2_handles_fresh {K V : Type} [DecidableEq K] :
    (∀ (ops1 : List (Op K V)) k1 c1 m1, ((GenerationMap.new).run ops1).get_id k1 = (c1, m1) →
      ∀ ops2 k2 c2 m2, ((m1.run ops2)).get_id k2 = (c2, m2) → k1 ≠ k2 →
        checkHandle c1 ≠ checkHandle c2)
    ∧ (∀ (ops : List (Op K V)) N,
        (genN ((GenerationMap.new).run ops) N).1.Nodup
        ∧ ∀ h0 ∈ (genN ((GenerationMap.new).run ops) N).1,
            (∀ k h', lookupA ((GenerationMap.new).run ops).target_map k = some h' → h' ≠ h0)
            ∧ ∀ ops2 k c m3,
                ((genN ((GenerationMap.new).run ops) N).2.run ops2).get_id k = (c, m3) →
                checkHandle c ≠ h0) := by
  constructor
  · intro ops1 k1 c1 m1 hg1 ops2 k2 c2 m2 hg2 hne
    have hl1 : lookupA m1.target_map k1 = some (checkHandle c1) :=
      get_id_lookup_after _ k1 c1 m1 hg1
    have hm1 : m1 = ((GenerationMap.new).run ops1).step (.getId k1) := by
      show m1 = (((GenerationMap.new).run ops1).get_id k1).2
      rw [hg1]
    have hreach : m1.run ops2 = (GenerationMap.new).run (ops1 ++ .getId k1 :: ops2) := by
      rw [run_append, run_cons, ← hm1]
    have hinv : Inv (m1.run ops2) := by
      rw [hreach]
      exact inv_run _ _ inv_new
    obtain ⟨hwt, _, hinj⟩ := hinv
    have hl1' : lookupA (m1.run ops2).target_map k1 = some (checkHandle c1) :=
      target_run_persist m1 ops2 k1 _ hl1
    cases hl2 : lookupA (m1.run ops2).target_map k2 with
    | some h2 =>
      rw [get_id_of_mem _ k2 h2 hl2] at hg2
      obtain ⟨rfl, rfl⟩ := Prod.mk.injEq .. ▸ hg2
      intro heq
      rw [checkHandle_exists] at heq
      rw [heq] at hl1'
      exact hne (hinj k1 k2 _ hl1' hl2)
    | none =>
      rw [get_id_of_not_mem _ k2 hl2] at hg2
      obtain ⟨rfl, rfl⟩ := Prod.mk.injEq .. ▸ hg2
      have hlt := hwt k1 _ hl1'
      intro heq
      rw [checkHandle_mustGenerate] at heq
      omega
  · intro ops N
    set m := (GenerationMap.new (K := K) (V := V)).run ops with hm
    obtain ⟨hg1, hg2, hg3⟩ := genN_spec N m
    have hinv : Inv m := inv_run _ _ inv_new
    obtain ⟨hwt, _, _⟩ := hinv
    constructor
    · rw [hg1]
      exact List.nodup_range' _ _
    · intro h0 hh0
      rw [hg1, List.mem_range'_1] at hh0
      constructor
      · intro k h' hl
        have := hwt k h' hl
        omega
      · intro ops2 k c m3 hg
        cases hl : lookupA ((genN m N).2.run ops2).target_map k with
        | some h' =>
          rw [get_id_of_mem _ k h' hl] at hg
          obtain ⟨rfl, rfl⟩ := Prod.mk.injEq .. ▸ hg
          rcases target_run_new _ ops2 k h' hl with hold | hnew
          · rw [hg2] at hold
            have := hwt k h' hold
            simp only [checkHandle]
            omega
          · rw [hg3] at hnew
            simp only [checkHandle]
            omega
        | none =>
          rw [get_id_of_not_mem _ k hl] at hg
          obtain ⟨rfl, rfl⟩ := Prod.mk.injEq .. ▸ hg
          have hlen := length_run_le (genN m N).2 ops2
          rw [hg3] at hlen
          simp only [checkHandle]
          omega

open GenerationMap in
/-- Witness for C2: from the empty map, reserving key "a" (handle 0) and then
key "b" (handle 1) yields distinct handles; two `gen_id` calls after
reserving "a" give nodup handles fresh for the key table and for later
`get_id` calls. -/
theorem C2_witness :
    (checkHandle (.MustGenerate 0) ≠ checkHandle (.MustGenerate 1)) ∧
    (GenerationMap.genN ((GenerationMap.new : GenerationMap String Nat).run
      [.getId "a"]) 2).1.Nodup :=
  ⟨(C2_handles_fresh (K := String) (V := Nat)).1 []
      "a" (.MustGenerate 0) (GenerationMap.mk [("a", 0)] [] [.Loading]) (by decide)
      [] "b" (.MustGenerate 1)
      (GenerationMap.mk [("b", 1), ("a", 0)] [] [.Loading, .Loading]) (by decide)
      (by decide),
    ((C2_handles_fresh (K := String) (V := Nat)).2 [.getId "a"] 2).1⟩

open GenerationMap in
/-- C9: in every reachable state, every handle recorded in the key-table or
the name-table is a live slot of the object-arena. (The mutating calls are
`get_id`, `gen_id`, `set` and `get`; `get_by_id`, `alloc_name` and `values`
take `&self` and cannot change the state, so quantifying over `Op` traces
covers all reachable states.) -/
theorem C9_arena_membership {K V : Type} [DecidableEq K] (ops : List (Op K V)) :
    (∀ k h, lookupA ((GenerationMap.new).run ops).target_map k = some h →
      (((GenerationMap.new).run ops).objects[h]?).isSome = true)
    ∧ (∀ n h, lookupA ((GenerationMap.new).run ops).name_map n = some h →
      (((GenerationMap.new).run ops).objects[h]?).isSome = true) := by
  obtain ⟨hwt, hwn, _⟩ := inv_run (GenerationMap.new (K := K) (V := V)) ops inv_new
  constructor
  · intro k h hl
    rw [List.getElem?_eq_getElem (hwt k h hl)]
    rfl
  · intro n h hl
    rw [List.getElem?_eq_getElem (hwn n h hl)]
    rfl

open GenerationMap in
/-- Witness for C9: after reserving key "a" and publishing handle 0 under
name "n", both tables point at live slots. -/
theorem C9_witness :
    (((GenerationMap.new : GenerationMap String Nat).run
        [.getId "a", .setOp 0 "n" 5]).objects[0]?).isSome = true :=
  (C9_arena_membership [.getId "a", .setOp 0 "n" 5]).1 "a" 0 (by decide)

open GenerationMap in
/-- C3: on a reserved handle (`h < objects.length`), `get_by_id` fails with
the "not yet generated" error exactly when the slot is still `Loading`; and
once `set h name v` has run, `get_by_id h` returns exactly `v`. The failure
cannot mutate the map and repeated calls agree, because `get_by_id` takes
`&self` and is embedded as a pure function of the state. -/
theorem C3_get_by_id_loading_error {K V : Type} [DecidableEq K]
    (m m' : GenerationMap K V) (h : Nat) (hh : h < m.objects.length)
    (name : String) (v : V) :
    (m.objects[h]? = some .Loading ↔
      m.get_by_id h = some (.error "attempted to view object before it has been loaded"))
    ∧ (m.set h name v = some (v, m') → m'.get_by_id h = some (.ok v)) := by
  constructor
  · constructor
    · intro hs
      unfold get_by_id
      rw [hs]
    · intro hs
      unfold get_by_id at hs
      cases he : m.objects[h]? with
      | none => rw [he] at hs; cases hs
      | some s =>
        cases s with
        | Loading => rfl
        | Exists w => rw [he] at hs; cases hs
  · intro hset
    rw [set_of_lt m h name v hh] at hset
    obtain ⟨-, rfl⟩ := Prod.mk.injEq .. ▸ Option.some.injEq .. ▸ hset
    unfold get_by_id
    simp only [List.getElem?_set_self hh]

open GenerationMap in
/-- Witness for C3: in a one-slot map the `Loading` slot yields the error,
and after `set 0 "n" 7` the value 7 is returned. -/
theorem C3_witness :
    ((GenerationMap.mk [("k", 0)] [] [.Loading] : GenerationMap String Nat).objects[0]? =
        some .Loading ↔
      (GenerationMap.mk [("k", 0)] [] [.Loading] : GenerationMap String Nat).get_by_id 0 =
        some (.error "attempted to view object before it has been loaded"))
    ∧ ((GenerationMap.mk [("k", 0)] [] [.Loading] : GenerationMap String Nat).set 0 "n" 7 =
        some (7, GenerationMap.mk [("k", 0)] [("n", 0)] [.Exists 7]) →
      (GenerationMap.mk [("k", 0)] [("n", 0)] [.Exists 7] :
        GenerationMap String Nat).get_by_id 0 = some (.ok 7)) :=
  C3_get_by_id_loading_error (GenerationMap.mk [("k", 0)] [] [.Loading])
    (GenerationMap.mk [("k", 0)] [("n", 0)] [.Exists 7]) 0 (by decide) "n" 7

open GenerationMap in
/-- C4: if every key recorded in the key-table has been published (its slot
is `Exists`), then `get` can never hit its panic branch: on a recorded key it
returns `Exists` with the stored shared value, and on any key its result is
never the panic marker `none`. -/
theorem C4_get_never_fails_when_published {K V : Type} [DecidableEq K]
    (m : GenerationMap K V)
    (hpub : ∀ k h, lookupA m.target_map k = some h →
      ∃ v, m.objects[h]? = some (.Exists v)) :
    ∀ k, (∀ h, lookupA m.target_map k = some h →
        ∃ v, m.objects[h]? = some (.Exists v) ∧ m.get k = (some (.Exists v), m))
      ∧ (m.get k).1 ≠ none := by
  intro k
  have hmain : ∀ h, lookupA m.target_map k = some h →
      ∃ v, m.objects[h]? = some (.Exists v) ∧ m.get k = (some (.Exists v), m) := by
    intro h hl
    obtain ⟨v, hv⟩ := hpub k h hl
    refine ⟨v, hv, ?_⟩
    unfold GenerationMap.get
    rw [get_id_of_mem m k h hl]
    have hby : m.get_by_id h = some (.ok v) := by
      unfold get_by_id
      rw [hv]
    simp [hby]
  constructor
  · exact hmain
  · cases hl : lookupA m.target_map k with
    | some h =>
      obtain ⟨v, -, hget⟩ := hmain h hl
      rw [hget]
      simp
    | none =>
      unfold GenerationMap.get
      rw [get_id_of_not_mem m k hl]
      simp

open GenerationMap in
/-- Witness for C4: a map whose only recorded key has been published; `get`
returns the stored value and never the panic marker. -/
theorem C4_witness :
    (∀ h, lookupA (GenerationMap.mk [("k", 0)] [("n", 0)] [.Exists 7] :
        GenerationMap String Nat).target_map "k" = some h →
      ∃ v, (GenerationMap.mk [("k", 0)] [("n", 0)] [.Exists 7] :
        GenerationMap String Nat).objects[h]? = some (.Exists v) ∧
        (GenerationMap.mk [("k", 0)] [("n", 0)] [.Exists 7] :
          GenerationMap String Nat).get "k" =
          (some (.Exists v), GenerationMap.mk [("k", 0)] [("n", 0)] [.Exists 7]))
    ∧ ((GenerationMap.mk [("k", 0)] [("n", 0)] [.Exists 7] :
        GenerationMap String Nat).get "k").1 ≠ none :=
  C4_get_never_fails_when_published (GenerationMap.mk [("k", 0)] [("n", 0)] [.Exists 7])
    (by
      intro k h hl
      by_cases hk : k = "k"
      · subst hk
        rw [show lookupA [("k", 0)] "k" = some 0 from rfl] at hl
        injection hl with hl
        exact ⟨7, by rw [← hl]; rfl⟩
      · rw [show (GenerationMap.mk [("k", 0)] [("n", 0)] [.Exists 7] :
          GenerationMap String Nat).target_map = [("k", 0)] from rfl,
          lookupA_cons, if_neg hk] at hl
        cases hl)
    "k"

open GenerationMap in
/-- C10: `set` on any live handle succeeds unconditionally: it returns the
shared container of `v`, overwrites the slot even if it was already
`Exists`, and remaps `name` to `h` in the name-table even if `name` was
already registered to another handle. -/
theorem C10_set_overwrites_unconditionally {K V : Type} [DecidableEq K]
    (m : GenerationMap K V) (h : Nat) (name : String) (v : V)
    (hh : (m.objects[h]?).isSome = true) :
    ∃ m', m.set h name v = some (v, m')
      ∧ m'.objects[h]? = some (.Exists v)
      ∧ lookupA m'.name_map name = some h := by
  have hlt : h < m.objects.length := by
    cases he : m.objects[h]? with
    | none => rw [he] at hh; cases hh
    | some s =>
      cases Nat.lt_or_ge h m.objects.length with
      | inl hl => exact hl
      | inr hg => rw [List.getElem?_eq_none (by omega)] at he; cases he
  refine ⟨_, set_of_lt m h name v hlt, ?_, ?_⟩
  · simp only [List.getElem?_set_self hlt]
  · simp [lookupA_cons]

open GenerationMap in
/-- Witness for C10 at a state whose slot 0 is already `Exists 3` and whose
name "n" is already registered to handle 1: `set` still succeeds, replaces
the value, and remaps the name. -/
theorem C10_witness :
    ∃ m', (GenerationMap.mk [] [("n", 1)] [.Exists 3, .Loading] :
        GenerationMap String Nat).set 0 "n" 9 = some (9, m')
      ∧ m'.objects[0]? = some (.Exists 9)
      ∧ lookupA m'.name_map "n" = some 0 :=
  C10_set_overwrites_unconditionally
    (GenerationMap.mk [] [("n", 1)] [.Exists 3, .Loading]) 0 "n" 9 (by decide)

namespace GenerationMap

variable {K V : Type} [DecidableEq K]

theorem getElem?_append_loading (l : List (ObjectStatus V)) (h : Nat) :
    (l ++ [ObjectStatus.Loading])[h]? =
      if h = l.length then some .Loading else l[h]? := by
  by_cases he : h = l.length
  · subst he
    rw [if_pos rfl]
    exact List.getElem?_concat_length l _
  · rw [if_neg he]
    by_cases hl : h < l.length
    · exact List.getElem?_append_left hl
    · rw [List.getElem?_eq_none (by simp only [List.length_append, List.length_singleton]; omega),
        List.getElem?_eq_none (by omega)]

theorem statusOf_published_iff (m : GenerationMap K V) (h : Nat) :
    statusOf m h = .published ↔ ∃ v, m.objects[h]? = some (.Exists v) := by
  unfold statusOf
  cases m.objects[h]? with
  | none => simp
  | some s => cases s <;> simp

theorem statusOf_loading_iff (m : GenerationMap K V) (h : Nat) :
    statusOf m h = .loading ↔ m.objects[h]? = some .Loading := by
  unfold statusOf
  cases m.objects[h]? with
  | none => simp
  | some s => cases s <;> simp

theorem statusOf_unreserved_iff (m : GenerationMap K V) (h : Nat) :
    statusOf m h = .unreserved ↔ m.objects[h]? = none := by
  unfold statusOf
  cases m.objects[h]? with
  | none => simp
  | some s => cases s <;> simp

theorem statusOf_append (m m' : GenerationMap K V)
    (hobj : m'.objects = m.objects ++ [.Loading]) (h : Nat) :
    statusOf m' h = if h = m.objects.length then .loading else statusOf m h := by
  unfold statusOf
  rw [hobj, getElem?_append_loading]
  by_cases he : h = m.objects.length
  · rw [if_pos he, if_pos he]
  · rw [if_neg he, if_neg he]

theorem statusOf_set (m m' : GenerationMap K V) (i : Nat) (v : V)
    (hi : i < m.objects.length) (hobj : m'.objects = m.objects.set i (.Exists v)) (h : Nat) :
    statusOf m' h = if h = i then .published else statusOf m h := by
  unfold statusOf
  rw [hobj]
  by_cases he : h = i
  · subst he
    rw [List.getElem?_set_self hi, if_pos rfl]
  · rw [List.getElem?_set_ne (fun hh => he hh.symm), if_neg he]

theorem step_set_eq (m : GenerationMap K V) (h' : Nat) (n : String) (v : V)
    (hlt : h' < m.objects.length) :
    m.step (.setOp h' n v) =
      { m with
        objects := m.objects.set h' (.Exists v)
        name_map := (n, h') :: m.name_map } := by
  show (match m.set h' n v with | some (_, m') => m' | none => m) = _
  rw [set_of_lt m h' n v hlt]

theorem step_set_stutter (m : GenerationMap K V) (h' : Nat) (n : String) (v : V)
    (hge : ¬ h' < m.objects.length) :
    m.step (.setOp h' n v) = m := by
  show (match m.set h' n v with | some (_, m') => m' | none => m) = m
  rw [set_of_ge m h' n v hge]

/-- A `published` slot stays `published` (and in particular never returns to
`Loading`) under every operation. -/
theorem step_preserves_published (m : GenerationMap K V) (op : Op K V) (h : Nat)
    (hp : statusOf m h = .published) : statusOf (m.step op) h = .published := by
  obtain ⟨v, hv⟩ := (statusOf_published_iff m h).1 hp
  have hlt : h < m.objects.length := by
    by_contra hge
    rw [List.getElem?_eq_none (by omega)] at hv
    cases hv
  cases op with
  | getId k =>
    show statusOf (m.get_id k).2 h = .published
    cases hl : lookupA m.target_map k with
    | some h0 => rw [get_id_of_mem m k h0 hl]; exact hp
    | none =>
      rw [get_id_of_not_mem m k hl, statusOf_append m _ rfl h, if_neg (by omega)]
      exact hp
  | genId =>
    rw [statusOf_append m _ rfl h, if_neg (by omega)]
    exact hp
  | setOp h' n v' =>
    by_cases hlt' : h' < m.objects.length
    · rw [step_set_eq m h' n v' hlt', statusOf_set m _ h' v' hlt' rfl h]
      by_cases he : h = h'
      · rw [if_pos he]
      · rw [if_neg he]; exact hp
    · rw [step_set_stutter m h' n v' hlt']
      exact hp
  | getOp k =>
    show statusOf (m.get k).2 h = .published
    rw [get_snd]
    cases hl : lookupA m.target_map k with
    | some h0 => rw [get_id_of_mem m k h0 hl]; exact hp
    | none =>
      rw [get_id_of_not_mem m k hl, statusOf_append m _ rfl h, if_neg (by omega)]
      exact hp

/-- A `Loading` slot either stays `Loading` or is published, and publication
happens only by a `set` on exactly that handle. -/
theorem step_loading_cases (m : GenerationMap K V) (op : Op K V) (h : Nat)
    (hp : statusOf m h = .loading) :
    statusOf (m.step op) h = .loading ∨
      (statusOf (m.step op) h = .published ∧ ∃ n v, op = .setOp h n v) := by
  have hv := (statusOf_loading_iff m h).1 hp
  have hlt : h < m.objects.length := by
    by_contra hge
    rw [List.getElem?_eq_none (by omega)] at hv
    cases hv
  cases op with
  | getId k =>
    left
    show statusOf (m.get_id k).2 h = .loading
    cases hl : lookupA m.target_map k with
    | some h0 => rw [get_id_of_mem m k h0 hl]; exact hp
    | none =>
      rw [get_id_of_not_mem m k hl, statusOf_append m _ rfl h, if_neg (by omega)]
      exact hp
  | genId =>
    left
    rw [statusOf_append m _ rfl h, if_neg (by omega)]
    exact hp
  | setOp h' n v' =>
    by_cases hlt' : h' < m.objects.length
    · rw [step_set_eq m h' n v' hlt', statusOf_set m _ h' v' hlt' rfl h]
      by_cases he : h = h'
      · right
        rw [if_pos he]
        exact ⟨rfl, n, v', by rw [he]⟩
      · left
        rw [if_neg he]
        exact hp
    · left
      rw [step_set_stutter m h' n v' hlt']
      exact hp
  | getOp k =>
    left
    show statusOf (m.get k).2 h = .loading
    rw [get_snd]
    cases hl : lookupA m.target_map k with
    | some h0 => rw [get_id_of_mem m k h0 hl]; exact hp
    | none =>
      rw [get_id_of_not_mem m k hl, statusOf_append m _ rfl h, if_neg (by omega)]
      exact hp

/-- An unreserved slot either stays unreserved or becomes `Loading`, and only
by a reserving call (`get_id` directly or through `get`, or `gen_id`); no
operation takes it to `published` directly. -/
theorem step_unreserved_cases (m : GenerationMap K V) (op : Op K V) (h : Nat)
    (hp : statusOf m h = .unreserved) :
    statusOf (m.step op) h = .unreserved ∨
      (statusOf (m.step op) h = .loading ∧
        (op = .genId ∨ (∃ k, op = .getId k) ∨ ∃ k, op = .getOp k)) := by
  have hv := (statusOf_unreserved_iff m h).1 hp
  have hge : m.objects.length ≤ h := by
    by_contra hlt
    rw [List.getElem?_eq_getElem (by omega)] at hv
    cases hv
  cases op with
  | getId k =>
    cases hl : lookupA m.target_map k with
    | some h0 =>
      left
      show statusOf (m.get_id k).2 h = .unreserved
      rw [get_id_of_mem m k h0 hl]
      exact hp
    | none =>
      by_cases he : h = m.objects.length
      · right
        refine ⟨?_, Or.inr (Or.inl ⟨k, rfl⟩)⟩
        show statusOf (m.get_id k).2 h = .loading
        rw [get_id_of_not_mem m k hl, statusOf_append m _ rfl h, if_pos he]
      · left
        show statusOf (m.get_id k).2 h = .unreserved
        rw [get_id_of_not_mem m k hl, statusOf_append m _ rfl h, if_neg he]
        exact hp
  | genId =>
    by_cases he : h = m.objects.length
    · right
      refine ⟨?_, Or.inl rfl⟩
      rw [statusOf_append m _ rfl h, if_pos he]
    · left
      rw [statusOf_append m _ rfl h, if_neg he]
      exact hp
  | setOp h' n v' =>
    left
    by_cases hlt' : h' < m.objects.length
    · rw [step_set_eq m h' n v' hlt', statusOf_set m _ h' v' hlt' rfl h,
        if_neg (by omega)]
      exact hp
    · rw [step_set_stutter m h' n v' hlt']
      exact hp
  | getOp k =>
    cases hl : lookupA m.target_map k with
    | some h0 =>
      left
      show statusOf (m.get k).2 h = .unreserved
      rw [get_snd, get_id_of_mem m k h0 hl]
      exact hp
    | none =>
      by_cases he : h = m.objects.length
      · right
        refine ⟨?_, Or.inr (Or.inr ⟨k, rfl⟩)⟩
        show statusOf (m.get k).2 h = .loading
        rw [get_snd, get_id_of_not_mem m k hl, statusOf_append m _ rfl h, if_pos he]
      · left
        show statusOf (m.get k).2 h = .unreserved
        rw [get_snd, get_id_of_not_mem m k hl, statusOf_append m _ rfl h, if_neg he]
        exact hp

/-- A successful `MustGenerate` reservation moves the fresh slot from
unreserved to `Loading`. -/
theorem get_id_reserve_status (m : GenerationMap K V) (k : K) (h : Nat)
    (m1 : GenerationMap K V) (hg : m.get_id k = (.MustGenerate h, m1)) :
    statusOf m h = .unreserved ∧ statusOf m1 h = .loading := by
  cases hl : lookupA m.target_map k with
  | some h0 =>
    rw [get_id_of_mem m k h0 hl] at hg
    simp at hg
  | none =>
    rw [get_id_of_not_mem m k hl] at hg
    obtain ⟨h1, rfl⟩ := Prod.mk.injEq .. ▸ hg
    injection h1 with h1
    subst h1
    constructor
    · exact (statusOf_unreserved_iff m _).2 (List.getElem?_eq_none (le_refl _))
    · rw [statusOf_append m _ rfl _, if_pos rfl]

/-- Lemma: `gen_id` moves the fresh slot from unreserved to `Loading`. -/
theorem gen_id_reserve_status (m : GenerationMap K V) (h : Nat)
    (m1 : GenerationMap K V) (hg : m.gen_id = (h, m1)) :
    statusOf m h = .unreserved ∧ statusOf m1 h = .loading := by
  obtain ⟨rfl, rfl⟩ := Prod.mk.injEq .. ▸ hg
  constructor
  · exact (statusOf_unreserved_iff m _).2 (List.getElem?_eq_none (le_refl _))
  · rw [statusOf_append m _ rfl _, if_pos rfl]

end GenerationMap

open GenerationMap in
/-- C5: the per-handle state machine. A slot is `Loading` when first reserved
(by `get_id`'s `MustGenerate` path or by `gen_id`); a `published` slot stays
`published` forever (never back to `Loading`); a `Loading` slot changes only
to `published` and only at a `set` call on exactly that handle; an
unreserved slot changes only to `Loading` and only at a reserving call. No
operation performs any other transition. -/
theorem C5_state_machine {K V : Type} [DecidableEq K] :
    (∀ (m : GenerationMap K V) k h m1, m.get_id k = (.MustGenerate h, m1) →
      statusOf m h = .unreserved ∧ statusOf m1 h = .loading)
    ∧ (∀ (m : GenerationMap K V) h m1, m.gen_id = (h, m1) →
      statusOf m h = .unreserved ∧ statusOf m1 h = .loading)
    ∧ (∀ (m : GenerationMap K V) (op : Op K V) h,
        statusOf m h = .published → statusOf (m.step op) h = .published)
    ∧ (∀ (m : GenerationMap K V) (op : Op K V) h, statusOf m h = .loading →
        statusOf (m.step op) h = .loading ∨
          (statusOf (m.step op) h = .published ∧ ∃ n v, op = .setOp h n v))
    ∧ (∀ (m : GenerationMap K V) (op : Op K V) h, statusOf m h = .unreserved →
        statusOf (m.step op) h = .unreserved ∨
          (statusOf (m.step op) h = .loading ∧
            (op = .genId ∨ (∃ k, op = .getId k) ∨ ∃ k, op = .getOp k))) :=
  ⟨fun m k h m1 => get_id_reserve_status m k h m1,
    fun m h m1 => gen_id_reserve_status m h m1,
    fun m op h => step_preserves_published m op h,
    fun m op h => step_loading_cases m op h,
    fun m op h => step_unreserved_cases m op h⟩

open GenerationMap in
/-- Witness for C5: a published slot survives a further `set` on it as
`published`, and a fresh reservation from the empty map enters `Loading`. -/
theorem C5_witness :
    statusOf ((GenerationMap.mk [] [] [.Exists 3] :
        GenerationMap String Nat).step (.setOp 0 "m" 9)) 0 = .published ∧
    (statusOf (GenerationMap.new : GenerationMap String Nat) 0 = .unreserved ∧
      statusOf (GenerationMap.mk [("k", 0)] [] [.Loading] : GenerationMap String Nat) 0 =
        .loading) :=
  ⟨(C5_state_machine (K := String) (V := Nat)).2.2.1
      (GenerationMap.mk [] [] [.Exists 3]) (.setOp 0 "m" 9) 0 (by decide),
    (C5_state_machine (K := String) (V := Nat)).1 GenerationMap.new "k" 0
      (GenerationMap.mk [("k", 0)] [] [.Loading]) (by decide)⟩

namespace GenerationMap

variable {K V : Type} [DecidableEq K]

theorem filterMap_statusValue_set_loading :
    ∀ (l : List (ObjectStatus V)) (h : Nat) (v : V), l[h]? = some .Loading →
      ((l.set h (.Exists v)).filterMap statusValue : Multiset V) =
        v ::ₘ (l.filterMap statusValue : Multiset V) := by
  intro l
  induction l with
  | nil =>
    intro h v hv
    simp at hv
  | cons x t ih =>
    intro h v hv
    cases h with
    | zero =>
      rw [List.getElem?_cons_zero] at hv
      injection hv with hv
      subst hv
      simp [statusValue, Multiset.cons_coe]
    | succ h =>
      rw [List.getElem?_cons_succ] at hv
      have htail := ih h v hv
      cases x with
      | Loading =>
        simpa [statusValue] using htail
      | Exists w =>
        simp only [List.set_cons_succ, List.filterMap_cons, statusValue]
        rw [← Multiset.cons_coe, ← Multiset.cons_coe, htail, Multiset.cons_swap]

theorem values_append_loading (m m' : GenerationMap K V)
    (hobj : m'.objects = m.objects ++ [.Loading]) : values m' = values m := by
  unfold values
  rw [hobj, List.filterMap_append]
  simp [statusValue]

theorem values_get_id (m : GenerationMap K V) (k : K) :
    values (m.get_id k).2 = values m := by
  cases hl : lookupA m.target_map k with
  | some h => rw [get_id_of_mem m k h hl]
  | none =>
    rw [get_id_of_not_mem m k hl]
    exact values_append_loading m _ rfl

/-- Over a trace each of whose `set`s hits a currently-`Loading` slot, the
final `values()` multiset is the starting one plus the published values. -/
theorem values_run_valid (m : GenerationMap K V) (ops : List (Op K V))
    (hv : ValidFrom m ops) :
    ((m.run ops).values : Multiset V) =
      (m.values : Multiset V) + (setValues ops : Multiset V) := by
  induction hv with
  | nil m => simp [run, setValues]
  | getId m k ops hv ih =>
    show (((m.step (.getId k)).run ops).values : Multiset V) = _
    rw [ih]
    have : values (m.step (.getId k)) = values m := values_get_id m k
    rw [this]
    rfl
  | genId m ops hv ih =>
    show (((m.step .genId).run ops).values : Multiset V) = _
    rw [ih]
    have : values (m.step .genId) = values m := values_append_loading m _ rfl
    rw [this]
    rfl
  | setOp m h n v ops hslot hv ih =>
    show (((m.step (.setOp h n v)).run ops).values : Multiset V) = _
    rw [ih]
    have hlt : h < m.objects.length := by
      by_contra hge
      rw [List.getElem?_eq_none (by omega)] at hslot
      cases hslot
    rw [step_set_eq m h n v hlt]
    have hvals : (({ m with
        objects := m.objects.set h (.Exists v)
        name_map := (n, h) :: m.name_map } : GenerationMap K V).values : Multiset V) =
        v ::ₘ (m.values : Multiset V) :=
      filterMap_statusValue_set_loading m.objects h v hslot
    rw [hvals]
    show v ::ₘ (m.values : Multiset V) + (setValues ops : Multiset V) =
      (m.values : Multiset V) + ((v :: setValues ops : List V) : Multiset V)
    rw [← Multiset.cons_coe, Multiset.cons_add, Multiset.add_cons]
  | getOp m k ops hv ih =>
    show (((m.step (.getOp k)).run ops).values : Multiset V) = _
    rw [ih]
    have : values (m.step (.getOp k)) = values m := by
      show values (m.get k).2 = values m
      rw [get_snd]
      exact values_get_id m k
    rw [this]
    rfl

end GenerationMap

open GenerationMap in
/-- C6: after any interleaving of `get_id`, `gen_id`, `get` and `set` from
the empty map, with each `set` targeting a currently-`Loading` (reserved,
not-yet-set) handle, `values()` yields exactly the multiset of values
published by the `set` calls, skipping every still-`Loading` slot. -/
theorem C6_values_are_published_multiset {K V : Type} [DecidableEq K]
    (ops : List (Op K V)) (hv : ValidFrom GenerationMap.new ops) :
    (((GenerationMap.new).run ops).values : Multiset V) =
      (setValues ops : Multiset V) := by
  rw [values_run_valid _ ops hv]
  show ((GenerationMap.new (K := K) (V := V)).values : Multiset V) + _ = _
  have : (GenerationMap.new (K := K) (V := V)).values = [] := rfl
  rw [this]
  simp

open GenerationMap in
/-- Witness for C6: reserve "a" (handle 0), publish 5 on it, `gen_id`
(handle 1, left `Loading`), reserve "b" (handle 2), publish 7 on it; the
values multiset is exactly {5, 7}. -/
theorem C6_witness :
    (((GenerationMap.new : GenerationMap String Nat).run
        [.getId "a", .setOp 0 "x" 5, .genId, .getId "b", .setOp 2 "y" 7]).values :
      Multiset Nat) = ([5, 7] : List Nat) :=
  C6_values_are_published_multiset
    [.getId "a", .setOp 0 "x" 5, .genId, .getId "b", .setOp 2 "y" 7]
    (ValidFrom.getId _ "a" _
      (ValidFrom.setOp _ 0 "x" 5 _ (by decide)
        (ValidFrom.genId _ _
          (ValidFrom.getId _ "b" _
            (ValidFrom.setOp _ 2 "y" 7 _ (by decide)
              (ValidFrom.nil _))))))

open GenerationMap in
/-- C7: `alloc_name(base)` returns `base` itself when `base` is not
registered in the name-table; otherwise it returns the first candidate
`base_2, base_3, ...` (increasing integer suffix) that is not registered;
in either case the returned name is never one already present in the
name-table. -/
theorem C7_alloc_name_first_candidate {K V : Type} [DecidableEq K]
    (m : GenerationMap K V) (base : String) :
    (m.is_name_available base = true → m.alloc_name base = base)
    ∧ (m.is_name_available base = false →
        ∃ i, 2 ≤ i ∧ m.alloc_name base = candidate base i ∧
          m.is_name_available (candidate base i) = true ∧
          ∀ j, 2 ≤ j → j < i → m.is_name_available (candidate base j) = false)
    ∧ m.is_name_used (m.alloc_name base) = false := by
  refine ⟨?_, ?_, ?_⟩
  · intro hav
    unfold alloc_name
    rw [if_pos hav]
  · intro hun
    unfold alloc_name
    rw [if_neg (by rw [hun]; exact Bool.false_ne_true)]
    exact alloc_core_finds_free m base
  · by_cases hav : m.is_name_available base = true
    · unfold alloc_name
      rw [if_pos hav]
      simpa [is_name_available] using hav
    · unfold alloc_name
      rw [if_neg hav]
      obtain ⟨j, -, heq, hfree, -⟩ := alloc_core_finds_free m base
      rw [heq]
      simpa [is_name_available] using hfree

open GenerationMap in
/-- Witness for C7 on a table where "x" and "x_2" are taken: the claim's
else-branch applies and, concretely, `alloc_name "x"` evaluates to "x_3". -/
theorem C7_witness :
    ((GenerationMap.mk [] [("x", 0), ("x_2", 1)] [.Loading, .Loading] :
        GenerationMap String Nat).is_name_available "x" = false)
    ∧ ((GenerationMap.mk [] [("x", 0), ("x_2", 1)] [.Loading, .Loading] :
        GenerationMap String Nat).alloc_name "x" = "x_3")
    ∧ ∃ i, 2 ≤ i ∧
        (GenerationMap.mk [] [("x", 0), ("x_2", 1)] [.Loading, .Loading] :
          GenerationMap String Nat).alloc_name "x" = candidate "x" i ∧
        (GenerationMap.mk [] [("x", 0), ("x_2", 1)] [.Loading, .Loading] :
          GenerationMap String Nat).is_name_available (candidate "x" i) = true ∧
        ∀ j, 2 ≤ j → j < i →
          (GenerationMap.mk [] [("x", 0), ("x_2", 1)] [.Loading, .Loading] :
            GenerationMap String Nat).is_name_available (candidate "x" j) = false :=
  ⟨by decide, by decide,
    (C7_alloc_name_first_candidate
      (GenerationMap.mk [] [("x", 0), ("x_2", 1)] [.Loading, .Loading]) "x").2.1
      (by decide)⟩

open GenerationMap in
/-- C8: `alloc_name` always succeeds: for every base name and every (finite)
name-table state the probe reaches an unregistered candidate — within at most
`name_map.length + 1` probes, which also bounds the source's unbounded
`loop` — so the returned name is always available and collision is never an
error. -/
theorem C8_alloc_name_total {K V : Type} [DecidableEq K]
    (m : GenerationMap K V) (base : String) :
    m.is_name_available (m.alloc_name base) = true := by
  by_cases hav : m.is_name_available base = true
  · unfold alloc_name
    rw [if_pos hav]
    exact hav
  · unfold alloc_name
    rw [if_neg hav]
    obtain ⟨j, -, heq, hfree, -⟩ := alloc_core_finds_free m base
    rw [heq]
    exact hfree

end Generation
end Substrate
